import Mathlib

/-!
# Verification of the file-encryptor core against its specification

Shallow embedding of the repository's crypto engine (`encryptFile`,
`decryptFile`, `isFileEncrypted`), the checkpoint/resume subsystem
(`ResumableOperation`), the worker pool (`EncryptionWorkerManager`) and the
batch orchestrator (`BatchProcessor`).  Files are byte lists (`List Nat`,
one `Nat` per byte); the platform cipher, KDF and hash primitives, which are
library calls and not part of the repository, are parameters gathered in
`CryptoPrim`; file-system facts consumed by the code are explicit function
parameters.
-/

namespace FileEncryptor

/-- The platform crypto primitives used by the code (Node `crypto` calls):
`kdf` models `pbkdf2Sync(password, salt, 100000, 32, sha256)`; `ks key iv i`
is byte `i` of the AES-256-GCM (CTR) keystream, so the stream cipher
transform is positionwise XOR against it; `tag key iv ct` models the 16-byte
GCM authentication tag over a ciphertext; `hash` models the hex sha256
digest used as the checkpoint password verifier. -/
structure CryptoPrim where
  kdf : String → List Nat → List Nat
  ks : List Nat → List Nat → Nat → Nat
  tag : List Nat → List Nat → List Nat → List Nat
  hash : String → String

/-- Model of `fs.readSync(fd, Buffer.alloc(len), 0, len, off)`: the bytes of
the file from `off`, zero-filled up to `len` when the file is shorter (a
fresh Node buffer is zero-initialised). -/
def readBytesAt (file : List Nat) (off len : Nat) : List Nat :=
  let chunk := (file.drop off).take len
  chunk ++ List.replicate (len - chunk.length) 0

/-- The throw of `fs.createReadStream` on an invalid byte range. -/
inductive StreamRangeError where
  | outOfRange
  deriving DecidableEq, Repr

/-- Model of `fs.createReadStream(path, then start, then end)` with
inclusive `end`: Node validates the range and throws `ERR_OUT_OF_RANGE`
whenever `start > end` (a negative computed `end`, clamped to 0 here by
Nat subtraction at the call sites, throws the same error); otherwise the
bytes from `s` to `e` inclusive are streamed. -/
def sliceStream (file : List Nat) (s e : Nat) :
    Except StreamRangeError (List Nat) :=
  if e < s then Except.error StreamRangeError.outOfRange
  else Except.ok ((file.drop s).take (e + 1 - s))

/-- A streaming CTR cipher from keystream offset `off`: each byte is XORed
with the next keystream byte.  `createCipheriv`/`createDecipheriv` always
start a fresh keystream, i.e. `off = 0`. -/
def ctrXor (f : Nat → Nat) (off : Nat) : List Nat → List Nat
  | [] => []
  | b :: rest => (b ^^^ f off) :: ctrXor f (off + 1) rest

/-- Errors surfaced by the engine: a GCM tag mismatch rejecting the
decryption promise (the AuthenticationError of the specification), and the
`ERR_OUT_OF_RANGE` throw of `fs.createReadStream`. -/
inductive CryptoError where
  | authenticationError
  | rangeError
  deriving DecidableEq, Repr

instance exceptDecEq {e a : Type} [DecidableEq e] [DecidableEq a] :
    DecidableEq (Except e a) := fun x y =>
  match x, y with
  | Except.error e1, Except.error e2 =>
    if h : e1 = e2 then Decidable.isTrue (by rw [h])
    else Decidable.isFalse (by intro hc; injection hc; contradiction)
  | Except.ok v1, Except.ok v2 =>
    if h : v1 = v2 then Decidable.isTrue (by rw [h])
    else Decidable.isFalse (by intro hc; injection hc; contradiction)
  | Except.error _, Except.ok _ =>
    Decidable.isFalse (fun hc => Except.noConfusion hc)
  | Except.ok _, Except.error _ =>
    Decidable.isFalse (fun hc => Except.noConfusion hc)

/-- Embedding of `encryptFile` (crypto module, lines 10-40): writes the
32-byte salt, the 16-byte iv, then the ciphertext piped through the
`aes-256-gcm` cipher.  The subsequent `output.write(authTag)` of line 36
runs after `stream.pipeline` has already ended the output stream, fails
with `ERR_STREAM_WRITE_AFTER_END` and appends nothing, so the file on disk
ends with the ciphertext and carries no tag.  The random
`crypto.randomBytes` draws are the `salt` and `iv` parameters. -/
def encryptFile (P : CryptoPrim) (salt iv : List Nat) (password : String)
    (data : List Nat) : List Nat :=
  let key := P.kdf password salt
  let ct := ctrXor (P.ks key iv) 0 data
  salt ++ iv ++ ct

/-- Embedding of `decryptFile` (crypto module, lines 98-133): reads the
salt at offset 0, the iv at offset 32 and the 16 bytes at `size - 16` as
the auth tag, re-derives the key, then opens a read stream over bytes
48 .. size-17 inclusive — which throws `ERR_OUT_OF_RANGE` whenever the
file is shorter than 65 bytes — and pipes it through the decipher,
succeeding only when the tag recomputed over the streamed bytes matches
the stored 16 bytes. -/
def decryptFile (P : CryptoPrim) (password : String) (file : List Nat) :
    Except CryptoError (List Nat) :=
  let salt := readBytesAt file 0 32
  let iv := readBytesAt file 32 16
  let key := P.kdf password salt
  let authTag := readBytesAt file (file.length - 16) 16
  match sliceStream file 48 (file.length - 17) with
  | Except.error _ => Except.error CryptoError.rangeError
  | Except.ok ct =>
    if P.tag key iv ct = authTag then
      Except.ok (ctrXor (P.ks key iv) 0 ct)
    else
      Except.error CryptoError.authenticationError

theorem ctrXor_length (f : Nat → Nat) (off : Nat) (l : List Nat) :
    (ctrXor f off l).length = l.length := by
  induction l generalizing off with
  | nil => rfl
  | cons b rest ih => simp [ctrXor, ih]

theorem ctrXor_ctrXor (f : Nat → Nat) (off : Nat) (l : List Nat) :
    ctrXor f off (ctrXor f off l) = l := by
  induction l generalizing off with
  | nil => rfl
  | cons b rest ih =>
    simp only [ctrXor, Nat.xor_cancel_right, ih]

theorem readBytesAt_exact (a rest : List Nat) (n : Nat) (h : a.length = n) :
    readBytesAt (a ++ rest) 0 n = a := by
  simp [readBytesAt, List.drop_zero, ← h, List.take_left]

theorem readBytesAt_middle (a b rest : List Nat) (n : Nat)
    (ha : a.length = n) :
    readBytesAt (a ++ (b ++ rest)) n b.length = b := by
  simp [readBytesAt, ← ha, List.drop_left, List.take_left]

theorem envelope_length (salt iv ct : List Nat)
    (hs : salt.length = 32) (hi : iv.length = 16) :
    (salt ++ iv ++ ct).length = 48 + ct.length := by
  simp [List.length_append, hs, hi]
  omega

/-- A tag-less envelope shorter than 65 bytes makes the ciphertext read
stream throw: start 48 exceeds the inclusive end `size - 17`. -/
theorem sliceStream_short (salt iv ct : List Nat)
    (hs : salt.length = 32) (hi : iv.length = 16)
    (hn : ct.length ≤ 16) :
    sliceStream (salt ++ iv ++ ct) 48 ((salt ++ iv ++ ct).length - 17) =
      Except.error StreamRangeError.outOfRange := by
  have hflen := envelope_length salt iv ct hs hi
  simp only [sliceStream]
  rw [if_pos (by omega : (salt ++ iv ++ ct).length - 17 < 48)]

/-- On a tag-less envelope of at least 65 bytes the ciphertext read stream
yields everything except the last 16 ciphertext bytes. -/
theorem sliceStream_long (salt iv ct : List Nat)
    (hs : salt.length = 32) (hi : iv.length = 16)
    (hn : 17 ≤ ct.length) :
    sliceStream (salt ++ iv ++ ct) 48 ((salt ++ iv ++ ct).length - 17) =
      Except.ok (ct.take (ct.length - 16)) := by
  have hflen := envelope_length salt iv ct hs hi
  have hassoc : salt ++ iv ++ ct = (salt ++ iv) ++ ct := by
    simp [List.append_assoc]
  have hdrop : (salt ++ iv ++ ct).drop 48 = ct := by
    rw [hassoc, show (48 : Nat) = (salt ++ iv).length from by
      simp [List.length_append, hs, hi], List.drop_left]
  simp only [sliceStream]
  rw [if_neg (by omega : ¬ (salt ++ iv ++ ct).length - 17 < 48), hdrop,
    show (salt ++ iv ++ ct).length - 17 + 1 - 48 = ct.length - 16 from by
      omega]

/-- On a tag-less envelope the 16 bytes `decryptFile` reads as the auth tag
are the last 16 ciphertext bytes. -/
theorem readBytesAt_last16 (salt iv ct : List Nat)
    (hs : salt.length = 32) (hi : iv.length = 16)
    (hn : 16 ≤ ct.length) :
    readBytesAt (salt ++ iv ++ ct) ((salt ++ iv ++ ct).length - 16) 16 =
      ct.drop (ct.length - 16) := by
  have hflen := envelope_length salt iv ct hs hi
  have hassoc : salt ++ iv ++ ct = (salt ++ iv) ++ ct := by
    simp [List.append_assoc]
  have hdrop48 : (salt ++ iv ++ ct).drop 48 = ct := by
    rw [hassoc, show (48 : Nat) = (salt ++ iv).length from by
      simp [List.length_append, hs, hi], List.drop_left]
  have hdrop : (salt ++ iv ++ ct).drop ((salt ++ iv ++ ct).length - 16) =
      ct.drop (ct.length - 16) := by
    rw [show (salt ++ iv ++ ct).length - 16 = 48 + (ct.length - 16) from by
      omega, ← List.drop_drop, hdrop48]
  have hlen16 : (ct.drop (ct.length - 16)).length = 16 := by
    rw [List.length_drop]
    omega
  simp only [readBytesAt, hdrop]
  rw [List.take_of_length_le (le_of_eq hlen16), hlen16]
  simp

/-- Decrypting a tag-less envelope shorter than 65 bytes throws the range
error before any tag comparison. -/
theorem decryptFile_short (P : CryptoPrim) (password : String)
    (salt iv ct : List Nat) (hs : salt.length = 32) (hi : iv.length = 16)
    (hn : ct.length ≤ 16) :
    decryptFile P password (salt ++ iv ++ ct) =
      Except.error CryptoError.rangeError := by
  unfold decryptFile
  rw [sliceStream_short salt iv ct hs hi hn]

/-- Decrypting a tag-less envelope of at least 65 bytes parses the fields
and reduces to comparing the tag recomputed over all but the last 16
ciphertext bytes against those last 16 ciphertext bytes. -/
theorem decryptFile_long (P : CryptoPrim) (password : String)
    (salt iv ct : List Nat) (hs : salt.length = 32) (hi : iv.length = 16)
    (hn : 17 ≤ ct.length) :
    decryptFile P password (salt ++ iv ++ ct) =
      (if P.tag (P.kdf password salt) iv (ct.take (ct.length - 16)) =
          ct.drop (ct.length - 16) then
        Except.ok (ctrXor (P.ks (P.kdf password salt) iv) 0
          (ct.take (ct.length - 16)))
      else Except.error CryptoError.authenticationError) := by
  have hassoc : salt ++ iv ++ ct = salt ++ (iv ++ ct) :=
    List.append_assoc salt iv ct
  have hsalt : readBytesAt (salt ++ iv ++ ct) 0 32 = salt := by
    rw [hassoc]
    exact readBytesAt_exact salt (iv ++ ct) 32 hs
  have hiv : readBytesAt (salt ++ iv ++ ct) 32 16 = iv := by
    rw [hassoc]
    have h := readBytesAt_middle salt iv ct 32 hs
    rwa [hi] at h
  have htag := readBytesAt_last16 salt iv ct hs hi (by omega)
  have hslice := sliceStream_long salt iv ct hs hi hn
  unfold decryptFile
  rw [hslice, hsalt, hiv, htag]

/-- C1: the round trip is broken for every plaintext and every password.
The tag `encryptFile` computes never reaches the file (write after the
pipeline ended the stream), so `decryptFile` with the same password fails
on every self-produced file: `ERR_OUT_OF_RANGE` for plaintexts of at most
16 bytes (including the empty file of the claim), and otherwise the last
16 ciphertext bytes are read as the tag, whose check cannot return the
plaintext (any accepted output would be 16 bytes short). -/
theorem c1_round_trip_broken (P : CryptoPrim) (salt iv : List Nat)
    (password : String) (data : List Nat)
    (hs : salt.length = 32) (hi : iv.length = 16) :
    decryptFile P password (encryptFile P salt iv password data) ≠
      Except.ok data := by
  intro h
  have hctlen : (ctrXor (P.ks (P.kdf password salt) iv) 0 data).length =
      data.length := ctrXor_length _ _ _
  rw [show encryptFile P salt iv password data =
    salt ++ iv ++ ctrXor (P.ks (P.kdf password salt) iv) 0 data from rfl]
    at h
  by_cases hn : data.length ≤ 16
  · rw [decryptFile_short P password salt iv _ hs hi (by omega)] at h
    exact Except.noConfusion h
  · rw [decryptFile_long P password salt iv _ hs hi (by omega)] at h
    split at h
    · simp only [Except.ok.injEq] at h
      have hlen := congrArg List.length h
      rw [ctrXor_length, List.length_take, hctlen] at hlen
      omega
    · exact Except.noConfusion h

/-- Concrete crypto primitives used by the witnesses: an injective toy
keystream, a constant-length toy tag and KDF. -/
def testPrim : CryptoPrim where
  kdf := fun p _ => [p.length]
  ks := fun k _ i => k.headD 0 + i
  tag := fun k _ ct => List.replicate 15 0 ++ [k.headD 0 + ct.length]
  hash := fun s => s

def testSalt : List Nat := List.replicate 32 0

def testIv : List Nat := List.replicate 16 5

theorem c1_round_trip_broken_witness :
    decryptFile testPrim "hunter2" (encryptFile testPrim testSalt testIv
      "hunter2" [7, 200, 13]) ≠ Except.ok [7, 200, 13] :=
  c1_round_trip_broken testPrim testSalt testIv "hunter2" [7, 200, 13]
    rfl rfl

/-- C2 counterexample: decrypting a file `encryptFile` produced for an
empty plaintext with a different password throws the stream range error
(the 48-byte file has no byte range 48 .. 31), not an
AuthenticationError. -/
theorem c2_wrong_error_counterexample :
    decryptFile testPrim "pw" (encryptFile testPrim testSalt testIv
      "hunter2" []) = Except.error CryptoError.rangeError ∧
    decryptFile testPrim "pw" (encryptFile testPrim testSalt testIv
      "hunter2" []) ≠ Except.error CryptoError.authenticationError := by
  refine ⟨by decide, by decide⟩

/-- C2 as amended: decrypting a self-produced file with a different
password always fails and never returns plaintext, but the error is the
stream range error for plaintexts of at most 16 bytes and the
authentication error only beyond that (given the AEAD authenticity
property, stated as the hypothesis that the tag recomputed under the
wrongly derived key differs from the 16 stored bytes). -/
theorem c2_wrong_password_errors (P : CryptoPrim) (salt iv : List Nat)
    (password password2 : String) (data : List Nat)
    (hs : salt.length = 32) (hi : iv.length = 16)
    (hpw : password2 ≠ password)
    (htm : P.tag (P.kdf password2 salt) iv
        ((ctrXor (P.ks (P.kdf password salt) iv) 0 data).take
          (data.length - 16)) ≠
      (ctrXor (P.ks (P.kdf password salt) iv) 0 data).drop
        (data.length - 16)) :
    decryptFile P password2 (encryptFile P salt iv password data) =
      (if data.length ≤ 16 then Except.error CryptoError.rangeError
       else Except.error CryptoError.authenticationError) := by
  have hctlen : (ctrXor (P.ks (P.kdf password salt) iv) 0 data).length =
      data.length := ctrXor_length _ _ _
  rw [show encryptFile P salt iv password data =
    salt ++ iv ++ ctrXor (P.ks (P.kdf password salt) iv) 0 data from rfl]
  by_cases hn : data.length ≤ 16
  · rw [if_pos hn, decryptFile_short P password2 salt iv _ hs hi (by omega)]
  · rw [if_neg hn]
    have htm2 : P.tag (P.kdf password2 salt) iv
        ((ctrXor (P.ks (P.kdf password salt) iv) 0 data).take
          ((ctrXor (P.ks (P.kdf password salt) iv) 0 data).length - 16)) ≠
        (ctrXor (P.ks (P.kdf password salt) iv) 0 data).drop
          ((ctrXor (P.ks (P.kdf password salt) iv) 0 data).length - 16) := by
      rw [hctlen]
      exact htm
    rw [decryptFile_long P password2 salt iv _ hs hi (by omega),
      if_neg htm2]

theorem c2_wrong_password_errors_witness :
    decryptFile testPrim "pw" (encryptFile testPrim testSalt testIv
      "hunter2" ([] : List Nat)) =
      (if ([] : List Nat).length ≤ 16 then
        Except.error CryptoError.rangeError
       else Except.error CryptoError.authenticationError) :=
  c2_wrong_password_errors testPrim testSalt testIv "hunter2" "pw" []
    rfl rfl (by decide) (by decide)

/-- The envelope layout claimed by the specification (sections 4.1 and 6):
a 4-byte format version, 32-byte salt, 16-byte base nonce, 4-byte chunk
size and 8-byte total plaintext length, followed by a body that
concatenates pairs of chunk ciphertext and that chunk's own 16-byte tag,
with no trailing whole-file tag. -/
def SpecChunkedEnvelope (file : List Nat) (plaintextLen : Nat) : Prop :=
  ∃ (version salt nonce chunkSizeBytes lenBytes : List Nat)
    (chunks : List (List Nat × List Nat)),
    version.length = 4 ∧ salt.length = 32 ∧ nonce.length = 16 ∧
    chunkSizeBytes.length = 4 ∧ lenBytes.length = 8 ∧
    (∀ c ∈ chunks, c.2.length = 16) ∧
    (chunks.map (fun c => c.1.length)).sum = plaintextLen ∧
    file = version ++ salt ++ nonce ++ chunkSizeBytes ++ lenBytes ++
      (chunks.map (fun c => c.1 ++ c.2)).flatten

theorem chunked_body_length (chunks : List (List Nat × List Nat))
    (h : ∀ c ∈ chunks, c.2.length = 16) :
    ((chunks.map (fun c => c.1 ++ c.2)).flatten).length =
      (chunks.map (fun c => c.1.length)).sum + 16 * chunks.length := by
  induction chunks with
  | nil => rfl
  | cons c rest ih =>
    have hc : c.2.length = 16 := h c (List.mem_cons_self c rest)
    have hr := ih (fun x hx => h x (List.mem_cons_of_mem c hx))
    simp [List.flatten, List.length_append, hr, hc]
    ring

/-- C3 counterexample: the file `encryptFile` actually writes for a 1-byte
plaintext is 49 bytes long, while any envelope of the claimed layout for a
1-byte plaintext holds a 64-byte header and at least one chunk, hence at
least 81 bytes. -/
theorem c3_layout_counterexample :
    ¬ SpecChunkedEnvelope
      (encryptFile testPrim testSalt testIv "hunter2" [42]) 1 := by
  rintro ⟨version, salt, nonce, chunkSizeBytes, lenBytes, chunks,
    hv, hsl, hn, hcs, hlb, htags, hsum, heq⟩
  have hfl : (encryptFile testPrim testSalt testIv "hunter2" [42]).length
      = 49 := by decide
  have hbody := chunked_body_length chunks htags
  rw [heq] at hfl
  simp only [List.length_append, hv, hsl, hn, hcs, hlb, hbody, hsum] at hfl
  omega

/-- The layout `encryptFile` actually produces: salt (32B), iv (16B), then
the stream ciphertext of the plaintext's own length and nothing after it —
no version, chunk-size or length fields, no per-chunk tags, and (because
the tag write fails after the pipeline ended the stream) no trailing
whole-file tag either. -/
def ActualEnvelopeLayout (P : CryptoPrim) (salt iv : List Nat)
    (password : String) (data : List Nat) : Prop :=
  (encryptFile P salt iv password data).length = 48 + data.length ∧
  (encryptFile P salt iv password data).take 32 = salt ∧
  ((encryptFile P salt iv password data).drop 32).take 16 = iv ∧
  (encryptFile P salt iv password data).drop 48 =
    ctrXor (P.ks (P.kdf password salt) iv) 0 data

/-- C3 as amended: every output of `encryptFile` is
salt(32B) | iv(16B) | ciphertext(n), with no further fields and no tag. -/
theorem c3_actual_layout (P : CryptoPrim) (salt iv : List Nat)
    (password : String) (data : List Nat)
    (hs : salt.length = 32) (hi : iv.length = 16) :
    ActualEnvelopeLayout P salt iv password data := by
  have hct : (ctrXor (P.ks (P.kdf password salt) iv) 0 data).length
      = data.length := ctrXor_length _ _ _
  refine ⟨?_, ?_, ?_, ?_⟩
  · rw [show encryptFile P salt iv password data =
      salt ++ iv ++ ctrXor (P.ks (P.kdf password salt) iv) 0 data from rfl,
      envelope_length salt iv _ hs hi, hct]
  · rw [encryptFile, ← hs, List.append_assoc, List.take_left]
  · rw [encryptFile, List.append_assoc, ← hs, List.drop_left, ← hi,
      List.take_left]
  · rw [encryptFile]
    rw [show salt ++ iv ++ ctrXor (P.ks (P.kdf password salt) iv) 0 data =
      (salt ++ iv) ++ ctrXor (P.ks (P.kdf password salt) iv) 0 data from by
        simp [List.append_assoc]]
    rw [show (48 : Nat) = (salt ++ iv).length from by
      simp [List.length_append, hs, hi]]
    rw [List.drop_left]

theorem c3_actual_layout_witness :
    ActualEnvelopeLayout testPrim testSalt testIv "hunter2" [7, 200, 13] :=
  c3_actual_layout testPrim testSalt testIv "hunter2" [7, 200, 13] rfl rfl

/-- The `OperationCheckpoint` record of the resumable-operation module:
`password` stores the sha256 digest of the password (`encryptPassword`),
never the plaintext. -/
structure OperationCheckpoint where
  id : String
  operation : String
  inputPath : String
  outputPath : String
  password : String
  progress : ℚ
  bytesProcessed : Nat
  totalBytes : Nat
  chunkSize : Nat
  timestamp : Nat
  algorithm : String
  salt : Option (List Nat)
  iv : Option (List Nat)
  tempDataPath : Option String
  deriving DecidableEq, Repr

/-- The `ResumeInfo` record returned by `canResumeOperation`. -/
structure ResumeInfo where
  canResume : Bool
  checkpoint : Option OperationCheckpoint
  reason : Option String
  deriving DecidableEq, Repr

/-- True when `pat` occurs as a contiguous run inside the list. -/
def listContainsSeq (pat : List Char) : List Char → Bool
  | [] => pat.isEmpty
  | c :: rest => pat.isPrefixOf (c :: rest) || listContainsSeq pat rest

/-- Model of the JavaScript `haystack.includes(needle)` substring test used
on `checkpoint.algorithm`. -/
def stringIncludes (haystack needle : String) : Bool :=
  listContainsSeq needle.data haystack.data

/-- Model of `verifyPassword`: sha256 digest comparison, not a full KDF. -/
def verifyPassword (P : CryptoPrim) (password storedHash : String) : Bool :=
  P.hash password == storedHash

/-- Embedding of `ResumableOperation.canResumeOperation` (lines 245-283).
The loaded checkpoint, the file-existence and file-size facts and the clock
are parameters; the checks run in the order of the source. -/
def canResumeOperation (P : CryptoPrim) (fsExists : String → Bool)
    (fsSize : String → Nat) (now : Nat)
    (checkpoint : Option OperationCheckpoint) (password : String) :
    ResumeInfo :=
  match checkpoint with
  | none => ⟨false, none, some "Checkpoint not found"⟩
  | some cp =>
    if !(verifyPassword P password cp.password) then
      ⟨false, none, some "Invalid password"⟩
    else if !(fsExists cp.inputPath) then
      ⟨false, none, some "Input file no longer exists"⟩
    else if fsSize cp.inputPath != cp.totalBytes then
      ⟨false, none, some "Input file has been modified"⟩
    else if (match cp.tempDataPath with
        | some t => !(fsExists t)
        | none => false) then
      ⟨false, none, some "Temporary data lost"⟩
    else if 7 * 86400000 < now - cp.timestamp then
      ⟨false, none, some "Checkpoint is too old (>7 days)"⟩
    else ⟨true, some cp, none⟩

/-- Modelled from the claim: the same checks in the order the claim states
them, with the age check before the temp-data check and the temp-data check
guarded by `bytesProcessed > 0`. -/
def canResumeClaimed (P : CryptoPrim) (fsExists : String → Bool)
    (fsSize : String → Nat) (now : Nat)
    (checkpoint : Option OperationCheckpoint) (password : String) :
    ResumeInfo :=
  match checkpoint with
  | none => ⟨false, none, some "Checkpoint not found"⟩
  | some cp =>
    if !(verifyPassword P password cp.password) then
      ⟨false, none, some "Invalid password"⟩
    else if !(fsExists cp.inputPath) then
      ⟨false, none, some "Input file no longer exists"⟩
    else if fsSize cp.inputPath != cp.totalBytes then
      ⟨false, none, some "Input file has been modified"⟩
    else if 7 * 86400000 < now - cp.timestamp then
      ⟨false, none, some "Checkpoint is too old (>7 days)"⟩
    else if 0 < cp.bytesProcessed && !(match cp.tempDataPath with
        | some t => fsExists t
        | none => false) then
      ⟨false, none, some "Temporary data lost"⟩
    else ⟨true, some cp, none⟩

/-- The conditions `canResumeOperation` checks for a loaded checkpoint, as
ok-condition and failure-reason pairs, in the order the source evaluates
them: password verifier, input exists, input size unchanged, temp snapshot
present when one was recorded, and only then checkpoint age. -/
def resumeChecks (P : CryptoPrim) (fsExists : String → Bool)
    (fsSize : String → Nat) (now : Nat) (cp : OperationCheckpoint)
    (password : String) : List (Bool × String) :=
  [(verifyPassword P password cp.password, "Invalid password"),
   (fsExists cp.inputPath, "Input file no longer exists"),
   (fsSize cp.inputPath == cp.totalBytes, "Input file has been modified"),
   ((match cp.tempDataPath with
     | some t => fsExists t
     | none => true), "Temporary data lost"),
   (decide (now - cp.timestamp ≤ 7 * 86400000),
     "Checkpoint is too old (>7 days)")]

def c5FsExists : String → Bool := fun p => p == "in.bin"

def c5Checkpoint : OperationCheckpoint where
  id := "op2"
  operation := "encrypt"
  inputPath := "in.bin"
  outputPath := "out.enc"
  password := "hunter2"
  progress := 1 / 2
  bytesProcessed := 1024
  totalBytes := 2048
  chunkSize := 5242880
  timestamp := 0
  algorithm := "aes-256-gcm"
  salt := some testSalt
  iv := some testIv
  tempDataPath := some "temp1"

/-- C5 counterexample: a checkpoint that is both older than 7 days and has
lost its temp snapshot.  The claim predicts the age reason (age is checked
before temp data in the claimed order); the code answers with the temp-data
reason, because it checks the temp snapshot before the age. -/
theorem c5_order_counterexample :
    canResumeOperation testPrim c5FsExists (fun _ => 2048) 691200000
        (some c5Checkpoint) "hunter2" =
      ⟨false, none, some "Temporary data lost"⟩ ∧
    canResumeClaimed testPrim c5FsExists (fun _ => 2048) 691200000
        (some c5Checkpoint) "hunter2" =
      ⟨false, none, some "Checkpoint is too old (>7 days)"⟩ := by
  constructor <;> decide

/-- C5 as amended: for every input, `canResumeOperation` answers with a
missing-checkpoint reason when no checkpoint loads, and otherwise with the
reason of the first failing condition of `resumeChecks` in the order the
source evaluates them (temp-snapshot presence, guarded by a recorded
`tempDataPath`, is checked before the 7-day age bound), attempting no
partial resume. -/
theorem c5_check_order (P : CryptoPrim) (fsExists : String → Bool)
    (fsSize : String → Nat) (now : Nat) (cp : OperationCheckpoint)
    (password : String) :
    canResumeOperation P fsExists fsSize now none password =
      ⟨false, none, some "Checkpoint not found"⟩ ∧
    canResumeOperation P fsExists fsSize now (some cp) password =
      (match (resumeChecks P fsExists fsSize now cp password).find?
          (fun c => !c.1) with
       | some c => ⟨false, none, some c.2⟩
       | none => ⟨true, some cp, none⟩) := by
  refine ⟨rfl, ?_⟩
  cases hv : verifyPassword P password cp.password with
  | false => simp [canResumeOperation, resumeChecks, List.find?, hv]
  | true =>
  cases he : fsExists cp.inputPath with
  | false => simp [canResumeOperation, resumeChecks, List.find?, hv, he]
  | true =>
  cases hsz : fsSize cp.inputPath == cp.totalBytes with
  | false =>
    simp [canResumeOperation, resumeChecks, List.find?, bne, hv, he, hsz]
  | true =>
  cases htd : cp.tempDataPath with
  | none =>
    by_cases hage : 7 * 86400000 < now - cp.timestamp
    · simp [canResumeOperation, resumeChecks, List.find?, bne, hv, he, hsz,
        htd, hage, Nat.not_le.mpr hage]
    · simp [canResumeOperation, resumeChecks, List.find?, bne, hv, he, hsz,
        htd, hage, Nat.le_of_not_lt hage]
  | some t =>
  cases hte : fsExists t with
  | false =>
    simp [canResumeOperation, resumeChecks, List.find?, bne, hv, he, hsz,
      htd, hte]
  | true =>
    by_cases hage : 7 * 86400000 < now - cp.timestamp
    · simp [canResumeOperation, resumeChecks, List.find?, bne, hv, he, hsz,
        htd, hte, hage, Nat.not_le.mpr hage]
    · simp [canResumeOperation, resumeChecks, List.find?, bne, hv, he, hsz,
        htd, hte, hage, Nat.le_of_not_lt hage]

/-- Embedding of `ResumableOperation.resumeEncryption` (lines 285-346): a
fresh cipher is created from the stored salt and iv (`createCipheriv`
restarts the keystream at offset 0), the input is read from byte
`bytesProcessed` on, the ciphertext is appended to the existing output
file, and for a GCM algorithm the tag the fresh cipher computed over the
resumed suffix is appended. -/
def resumeEncryption (P : CryptoPrim) (cp : OperationCheckpoint)
    (password : String) (data existingOutput : List Nat) : List Nat :=
  let key := P.kdf password (cp.salt.getD [])
  let suffixCt := ctrXor (P.ks key (cp.iv.getD [])) 0
    (data.drop cp.bytesProcessed)
  existingOutput ++ suffixCt ++
    (if stringIncludes cp.algorithm "gcm" then
      P.tag key (cp.iv.getD []) suffixCt
    else [])

/-- The output file an interrupted `encryptFile` run leaves behind after
the cipher has consumed the first `b` plaintext bytes: the salt, the iv and
the first `b` ciphertext bytes. -/
def interruptedEncryptOutput (P : CryptoPrim) (salt iv : List Nat)
    (password : String) (data : List Nat) (b : Nat) : List Nat :=
  salt ++ iv ++ (ctrXor (P.ks (P.kdf password salt) iv) 0 data).take b

def c4Checkpoint : OperationCheckpoint where
  id := "op1"
  operation := "encrypt"
  inputPath := "in.bin"
  outputPath := "out.enc"
  password := "hunter2"
  progress := 1 / 2
  bytesProcessed := 1
  totalBytes := 2
  chunkSize := 5242880
  timestamp := 0
  algorithm := "aes-256-gcm"
  salt := some testSalt
  iv := some testIv
  tempDataPath := some "t"

/-- C4: resuming an interrupted encryption does not reproduce the
uninterrupted ciphertext.  For the 2-byte plaintext `[0, 0]` interrupted
after 1 byte, the resumed run restarts the keystream at position 0, so the
two output files already differ at byte 49; moreover the resumed run
appends a suffix-only tag via `fs.appendFileSync` (which does succeed),
while the uninterrupted run writes none (its stream write of the tag
fails), so the files are 66 and 50 bytes long. -/
theorem c4_resume_divergence :
    ((resumeEncryption testPrim c4Checkpoint "hunter2" [0, 0]
        (interruptedEncryptOutput testPrim testSalt testIv "hunter2"
          [0, 0] 1)) ==
      encryptFile testPrim testSalt testIv "hunter2" [0, 0]) = false ∧
    (resumeEncryption testPrim c4Checkpoint "hunter2" [0, 0]
        (interruptedEncryptOutput testPrim testSalt testIv "hunter2"
          [0, 0] 1)).length = 66 ∧
    (encryptFile testPrim testSalt testIv "hunter2" [0, 0]).length = 50 ∧
    (resumeEncryption testPrim c4Checkpoint "hunter2" [0, 0]
        (interruptedEncryptOutput testPrim testSalt testIv "hunter2"
          [0, 0] 1)).get? 49 = some 7 ∧
    (encryptFile testPrim testSalt testIv "hunter2" [0, 0]).get? 49 =
      some 8 := by
  refine ⟨?_, ?_, ?_, ?_, ?_⟩ <;> decide

/-- State of `EncryptionWorkerManager`: the FIFO task queue
(`activeTasksQueue`), the keys of the `workers` map, the
`currentWorkerCount` counter and the `maxWorkers` bound. -/
structure PoolState where
  activeTasksQueue : List String
  workers : List String
  currentWorkerCount : Nat
  maxWorkers : Nat
  deriving DecidableEq, Repr

/-- Embedding of `startWorker` (lines 107-138): `workers.set(task.id, w)`
and `currentWorkerCount++`. -/
def startWorker (id : String) (s : PoolState) : PoolState :=
  { s with
    workers := if id ∈ s.workers then s.workers else s.workers ++ [id]
    currentWorkerCount := s.currentWorkerCount + 1 }

/-- Embedding of `processQueue` (lines 93-105): return when the queue is
empty or the pool is full, otherwise shift the queue head and start a
worker for it. -/
def processQueue (s : PoolState) : PoolState :=
  if s.activeTasksQueue.length = 0 ∨
      s.maxWorkers ≤ s.currentWorkerCount then s
  else
    match s.activeTasksQueue with
    | [] => s
    | t :: rest => startWorker t { s with activeTasksQueue := rest }

/-- Embedding of `cleanupWorker` (lines 140-147): terminate and remove the
worker and decrement the counter, only when the id is still in the map. -/
def cleanupWorker (id : String) (s : PoolState) : PoolState :=
  if id ∈ s.workers then
    { s with
      workers := s.workers.erase id
      currentWorkerCount := s.currentWorkerCount - 1 }
  else s

/-- Embedding of `queueTask` (lines 88-91): push then process the queue. -/
def queueTask (id : String) (s : PoolState) : PoolState :=
  processQueue { s with activeTasksQueue := s.activeTasksQueue ++ [id] }

/-- A worker signalled completion, error or exit (the message, error and
exit handlers of lines 116-137 all run `cleanupWorker` then
`processQueue`). -/
def workerFinished (id : String) (s : PoolState) : PoolState :=
  processQueue (cleanupWorker id s)

/-- Embedding of `cancelTask` (lines 149-160): cleanup when running, then
remove the task from the queue. -/
def cancelTask (id : String) (s : PoolState) : PoolState :=
  let s1 := cleanupWorker id s
  { s1 with
    activeTasksQueue := s1.activeTasksQueue.filter (fun t => t != id) }

/-- Embedding of `cancelAllTasks` (lines 162-171): cleanup every running
worker and clear the queue. -/
def cancelAllTasks (s : PoolState) : PoolState :=
  let s1 := s.workers.foldl (fun st id => cleanupWorker id st) s
  { s1 with activeTasksQueue := [] }

/-- Events the manager reacts to. -/
inductive PoolEvent where
  | queueTask (id : String)
  | workerFinished (id : String)
  | cancelTask (id : String)
  | cancelAllTasks
  deriving DecidableEq, Repr

def step : PoolEvent → PoolState → PoolState
  | PoolEvent.queueTask id, s => queueTask id s
  | PoolEvent.workerFinished id, s => workerFinished id s
  | PoolEvent.cancelTask id, s => cancelTask id s
  | PoolEvent.cancelAllTasks, s => cancelAllTasks s

def run (events : List PoolEvent) (s : PoolState) : PoolState :=
  events.foldl (fun st e => step e st) s

def initialPool (m : Nat) : PoolState :=
  ⟨[], [], 0, m⟩

/-- The pool invariant: the counter is bounded by `maxWorkers` and the
worker map is no larger than the counter. -/
def PoolInv (s : PoolState) : Prop :=
  s.currentWorkerCount ≤ s.maxWorkers ∧
  s.workers.length ≤ s.currentWorkerCount

theorem cleanupWorker_inv (id : String) (s : PoolState) (h : PoolInv s) :
    PoolInv (cleanupWorker id s) := by
  obtain ⟨h1, h2⟩ := h
  unfold cleanupWorker
  split
  case isTrue hm =>
    have hpos : 0 < s.workers.length := List.length_pos_of_mem hm
    have he : (s.workers.erase id).length = s.workers.length - 1 :=
      List.length_erase_of_mem hm
    refine ⟨?_, ?_⟩
    · show s.currentWorkerCount - 1 ≤ s.maxWorkers
      omega
    · show (s.workers.erase id).length ≤ s.currentWorkerCount - 1
      rw [he]; omega
  case isFalse => exact ⟨h1, h2⟩

theorem cleanupWorker_max (id : String) (s : PoolState) :
    (cleanupWorker id s).maxWorkers = s.maxWorkers := by
  unfold cleanupWorker
  split <;> rfl

theorem processQueue_inv (s : PoolState) (h : PoolInv s) :
    PoolInv (processQueue s) := by
  obtain ⟨h1, h2⟩ := h
  unfold processQueue
  split
  case isTrue => exact ⟨h1, h2⟩
  case isFalse hguard =>
    push_neg at hguard
    obtain ⟨-, hlt⟩ := hguard
    split
    case h_1 => exact ⟨h1, h2⟩
    case h_2 t rest heq =>
      refine ⟨?_, ?_⟩
      · show s.currentWorkerCount + 1 ≤ s.maxWorkers
        omega
      · show (startWorker t
            { s with activeTasksQueue := rest }).workers.length ≤
          s.currentWorkerCount + 1
        simp only [startWorker]
        split
        · exact le_trans h2 (Nat.le_succ _)
        · show (s.workers ++ [t]).length ≤ s.currentWorkerCount + 1
          simp only [List.length_append, List.length_singleton]
          omega

theorem processQueue_max (s : PoolState) :
    (processQueue s).maxWorkers = s.maxWorkers := by
  unfold processQueue
  split
  · rfl
  split
  · rfl
  · simp [startWorker]

theorem foldl_cleanup_inv (ids : List String) (s : PoolState)
    (h : PoolInv s) :
    PoolInv (ids.foldl (fun st id => cleanupWorker id st) s) := by
  induction ids generalizing s with
  | nil => exact h
  | cons id rest ih => exact ih _ (cleanupWorker_inv id s h)

theorem foldl_cleanup_max (ids : List String) (s : PoolState) :
    (ids.foldl (fun st id => cleanupWorker id st) s).maxWorkers =
      s.maxWorkers := by
  induction ids generalizing s with
  | nil => rfl
  | cons id rest ih => rw [List.foldl_cons, ih, cleanupWorker_max]

theorem step_inv (e : PoolEvent) (s : PoolState) (h : PoolInv s) :
    PoolInv (step e s) := by
  cases e with
  | queueTask id =>
    exact processQueue_inv _ ⟨h.1, by simpa using h.2⟩
  | workerFinished id =>
    exact processQueue_inv _ (cleanupWorker_inv id s h)
  | cancelTask id =>
    have h1 := cleanupWorker_inv id s h
    exact ⟨h1.1, h1.2⟩
  | cancelAllTasks =>
    have h1 := foldl_cleanup_inv s.workers s h
    exact ⟨h1.1, h1.2⟩

theorem step_max (e : PoolEvent) (s : PoolState) :
    (step e s).maxWorkers = s.maxWorkers := by
  cases e with
  | queueTask id => exact processQueue_max _
  | workerFinished id => rw [step, workerFinished, processQueue_max,
      cleanupWorker_max]
  | cancelTask id => rw [step, cancelTask, cleanupWorker_max]
  | cancelAllTasks => rw [step, cancelAllTasks, foldl_cleanup_max]

theorem run_inv (events : List PoolEvent) (s : PoolState) (h : PoolInv s) :
    PoolInv (run events s) := by
  induction events generalizing s with
  | nil => exact h
  | cons e rest ih => exact ih _ (step_inv e s h)

theorem run_max (events : List PoolEvent) (s : PoolState) :
    (run events s).maxWorkers = s.maxWorkers := by
  induction events generalizing s with
  | nil => rfl
  | cons e rest ih => rw [run, List.foldl_cons, ← run, ih, step_max]

/-- C6: however many tasks are launched, cancelled or finished, in every
reachable state of the worker manager the counter and the set of live
workers never exceed `maxWorkers`; slots free only via `cleanupWorker` and
every freed slot re-runs `processQueue`, which starts at most the FIFO
queue head. -/
theorem c6_pool_bound (m : Nat) (events : List PoolEvent) :
    (run events (initialPool m)).currentWorkerCount ≤ m ∧
    (run events (initialPool m)).workers.length ≤ m := by
  have hinv : PoolInv (run events (initialPool m)) :=
    run_inv events (initialPool m) ⟨Nat.zero_le m, Nat.le_refl 0⟩
  have hmax : (run events (initialPool m)).maxWorkers = m :=
    run_max events (initialPool m)
  have hc : (run events (initialPool m)).currentWorkerCount ≤ m :=
    le_trans hinv.1 (le_of_eq hmax)
  exact ⟨hc, le_trans hinv.2 hc⟩

/-- The `BatchProgress` record the orchestrator passes to `onProgress`
(fractions are percentages, as in the source, held exactly as rationals). -/
structure BatchProgress where
  fileIndex : Nat
  fileName : String
  fileProgress : ℚ
  overallProgress : ℚ
  completed : Nat
  total : Nat
  errors : List String
  deriving DecidableEq, Repr

/-- What kind of `onProgress` call a trace entry records: the tick before a
file starts, a tick from the per-file progress callback, or the final
overall-progress-100 tick. -/
inductive TickKind where
  | preFile
  | midFile
  | final
  deriving DecidableEq, Repr

/-- One file of a batch as the engine behaves on it: the engine reports the
fractions in `ticks` through the per-file callback and then either resolves
(`failure = none`) or rejects with an error message. -/
structure FileRun where
  name : String
  ticks : List ℚ
  failure : Option String
  deriving DecidableEq, Repr

/-- The per-file error message the orchestrator records. -/
def failMessage (operation name msg : String) : String :=
  "Failed to " ++ operation ++ " " ++ name ++ ": " ++ msg

/-- The per-file progress callback of `processFiles` (lines 78-82): each
engine fraction updates `fileProgress` (as a percentage) and
`overallProgress = ((i + fileProgress) / files.length) * 100`, and a copy
of the record is emitted. -/
def emitTicks (K i : Nat) (p : BatchProgress) :
    List ℚ → List BatchProgress × BatchProgress
  | [] => ([], p)
  | fp :: rest =>
    let p1 := { p with
      fileProgress := fp * 100
      overallProgress := ((i : ℚ) + fp) / (K : ℚ) * 100 }
    let (tl, pf) := emitTicks K i p1 rest
    (p1 :: tl, pf)

/-- The `for` loop of `BatchProcessor.processFiles` (lines 62-93) with
`shouldCancel` false throughout (no external cancellation): per file, the
pre-file tick, the per-file callback ticks, then either `completed++` or an
appended error; the loop never aborts early. -/
def processLoop (operation : String) (K : Nat) :
    Nat → BatchProgress → List FileRun →
    List (TickKind × BatchProgress) × BatchProgress
  | _, p, [] => ([], p)
  | i, p, f :: rest =>
    let p1 := { p with
      fileIndex := i
      fileName := f.name
      fileProgress := 0
      overallProgress := (i : ℚ) / (K : ℚ) * 100 }
    let (mids, p2) := emitTicks K i p1 f.ticks
    let p3 := match f.failure with
      | none => { p2 with completed := p2.completed + 1 }
      | some msg =>
        { p2 with errors := p2.errors ++ [failMessage operation f.name msg] }
    let (tl, pf) := processLoop operation K (i + 1) p3 rest
    ((TickKind.preFile, p1) ::
      (mids.map (fun s => (TickKind.midFile, s)) ++ tl), pf)

/-- Embedding of `BatchProcessor.processFiles` (lines 51-96): the initial
record, the loop over every file, and the final overall-progress-100 tick.
Returns the emitted trace and the final record. -/
def processFiles (operation : String) (files : List FileRun) :
    List (TickKind × BatchProgress) × BatchProgress :=
  let init : BatchProgress :=
    ⟨0, "", 0, 0, 0, files.length, []⟩
  let (ticks, p) := processLoop operation files.length 0 init files
  let pf := { p with overallProgress := 100 }
  (ticks ++ [(TickKind.final, pf)], pf)

/-- The reentrancy guard of `processFiles` (lines 44-49 and 97-99): a call
while `isProcessing` is set throws before any processing; otherwise the
body runs and the `finally` clears the flag however the body settles. -/
def runExclusive (isProcessing : Bool)
    (body : Except String (List (TickKind × BatchProgress) × BatchProgress)) :
    Except String (List (TickKind × BatchProgress) × BatchProgress) × Bool :=
  if isProcessing then
    (Except.error "Batch processing is already in progress", isProcessing)
  else (body, false)

/-- Embedding of `isCurrentlyProcessing` (lines 176-178). -/
def isCurrentlyProcessing (isProcessing : Bool) : Bool := isProcessing

theorem emitTicks_state (K i : Nat) (fr : List ℚ) (p : BatchProgress) :
    (emitTicks K i p fr).2.completed = p.completed ∧
    (emitTicks K i p fr).2.errors = p.errors ∧
    (emitTicks K i p fr).2.total = p.total ∧
    (emitTicks K i p fr).2.fileIndex = p.fileIndex := by
  induction fr generalizing p with
  | nil => exact ⟨rfl, rfl, rfl, rfl⟩
  | cons fp rest ih => simpa [emitTicks] using ih _

theorem processLoop_counts (operation : String) (K : Nat)
    (files : List FileRun) :
    ∀ (i : Nat) (p : BatchProgress),
    (processLoop operation K i p files).2.completed =
      p.completed + (files.filter (fun f => f.failure.isNone)).length ∧
    (processLoop operation K i p files).2.errors.length =
      p.errors.length + (files.filter (fun f => f.failure.isSome)).length ∧
    ((processLoop operation K i p files).1.filter
      (fun t => t.1 == TickKind.preFile)).length = files.length := by
  induction files with
  | nil => intro i p; simp [processLoop]
  | cons f rest ih =>
    intro i p
    have hstate := emitTicks_state K i f.ticks
      { p with
        fileIndex := i
        fileName := f.name
        fileProgress := 0
        overallProgress := (i : ℚ) / (K : ℚ) * 100 }
    simp only [processLoop]
    generalize hgen : emitTicks K i
      { p with
        fileIndex := i
        fileName := f.name
        fileProgress := 0
        overallProgress := (i : ℚ) / (K : ℚ) * 100 } f.ticks = q
    rw [hgen] at hstate
    obtain ⟨hc2, he2, -, -⟩ := hstate
    have hc2' : q.2.completed = p.completed := by simpa using hc2
    have he2' : q.2.errors = p.errors := by simpa using he2
    have hfilter : (q.1.map (fun s => (TickKind.midFile, s))).filter
        (fun t => t.1 == TickKind.preFile) = [] := by
      simp [List.filter_map]
    cases hf : f.failure with
    | none =>
      have hr := ih (i + 1) { q.2 with completed := q.2.completed + 1 }
      refine ⟨?_, ?_, ?_⟩
      · simp only [hf]
        rw [hr.1]
        simp [List.filter_cons, hf, hc2']
        omega
      · simp only [hf]
        rw [hr.2.1]
        simp [List.filter_cons, hf, he2']
      · simp only [hf, List.filter_cons, List.filter_append, hfilter]
        simp [hr.2.2]
    | some msg =>
      have hr := ih (i + 1)
        { q.2 with errors :=
            q.2.errors ++ [failMessage operation f.name msg] }
      refine ⟨?_, ?_, ?_⟩
      · simp only [hf]
        rw [hr.1]
        simp [List.filter_cons, hf, hc2']
      · simp only [hf]
        rw [hr.2.1]
        simp [List.filter_cons, hf, he2']
        omega
      · simp only [hf, List.filter_cons, List.filter_append, hfilter]
        simp [hr.2.2]

/-- Complement counting: every file is either a success or a failure. -/
theorem filter_failure_split (files : List FileRun) :
    (files.filter (fun f => f.failure.isNone)).length +
      (files.filter (fun f => f.failure.isSome)).length = files.length := by
  induction files with
  | nil => rfl
  | cons f rest ih =>
    cases hf : f.failure with
    | none => simp [List.filter_cons, hf]; omega
    | some m => simp [List.filter_cons, hf]; omega

/-- C7: a batch over K files of which M fail completes every iteration
(the trace holds exactly K pre-file ticks), ends with exactly K - M files
counted completed and exactly M accumulated error entries. -/
theorem c7_batch_partial_failure (operation : String)
    (files : List FileRun) :
    (processFiles operation files).2.completed =
      files.length - (files.filter (fun f => f.failure.isSome)).length ∧
    (processFiles operation files).2.errors.length =
      (files.filter (fun f => f.failure.isSome)).length ∧
    ((processFiles operation files).1.filter
      (fun t => t.1 == TickKind.preFile)).length = files.length := by
  obtain ⟨h1, h2, h3⟩ := processLoop_counts operation files.length files 0
    ⟨0, "", 0, 0, 0, files.length, []⟩
  have hsplit := filter_failure_split files
  have h1' : (processLoop operation files.length 0
      ⟨0, "", 0, 0, 0, files.length, []⟩ files).2.completed =
      (files.filter (fun f => f.failure.isNone)).length := by simpa using h1
  have h2' : (processLoop operation files.length 0
      ⟨0, "", 0, 0, 0, files.length, []⟩ files).2.errors.length =
      (files.filter (fun f => f.failure.isSome)).length := by simpa using h2
  have hcompleted : (processFiles operation files).2.completed =
      (processLoop operation files.length 0
        ⟨0, "", 0, 0, 0, files.length, []⟩ files).2.completed := rfl
  have herrors : (processFiles operation files).2.errors =
      (processLoop operation files.length 0
        ⟨0, "", 0, 0, 0, files.length, []⟩ files).2.errors := rfl
  have hticks : (processFiles operation files).1 =
      (processLoop operation files.length 0
        ⟨0, "", 0, 0, 0, files.length, []⟩ files).1 ++
      [(TickKind.final,
        { (processLoop operation files.length 0
            ⟨0, "", 0, 0, 0, files.length, []⟩ files).2 with
          overallProgress := (100 : ℚ) })] := rfl
  refine ⟨?_, ?_, ?_⟩
  · rw [hcompleted, h1']
    omega
  · rw [herrors, h2']
  · rw [hticks]
    simp only [List.filter_append]
    simp [h3]

/-- Every snapshot the per-file callback emits carries the file index and
total of the record it updates and satisfies the index-based aggregation
formula. -/
theorem emitTicks_formula (K i : Nat) (fr : List ℚ) (p : BatchProgress)
    (hI : p.fileIndex = i) (hT : p.total = K) :
    ∀ s ∈ (emitTicks K i p fr).1,
      s.fileIndex = i ∧ s.total = K ∧
      s.overallProgress =
        ((s.fileIndex : ℚ) + s.fileProgress / 100) / (s.total : ℚ) * 100 := by
  induction fr generalizing p with
  | nil => intro s hs; simp [emitTicks] at hs
  | cons fp rest ih =>
    intro s hs
    simp only [emitTicks] at hs
    rcases List.mem_cons.mp hs with hsp | hmem
    · subst hsp
      refine ⟨by simpa using hI, by simpa using hT, ?_⟩
      show ((i : ℚ) + fp) / (K : ℚ) * 100 =
        ((p.fileIndex : ℚ) + fp * 100 / 100) / ((p.total : ℚ)) * 100
      rw [hI, hT, mul_div_cancel_right₀ fp
        (by norm_num : (100 : ℚ) ≠ 0)]
    · exact ih _ (by simpa using hI) (by simpa using hT) s hmem

/-- Every pre-file and per-file tick of the loop satisfies the index-based
aggregation formula. -/
theorem processLoop_formula (operation : String) (K : Nat)
    (files : List FileRun) :
    ∀ (i : Nat) (p : BatchProgress), p.total = K →
    ∀ t ∈ (processLoop operation K i p files).1,
      t.2.overallProgress =
        ((t.2.fileIndex : ℚ) + t.2.fileProgress / 100) /
          (t.2.total : ℚ) * 100 := by
  induction files with
  | nil => intro i p hT t ht; simp [processLoop] at ht
  | cons f rest ih =>
    intro i p hT t ht
    have hstate := emitTicks_state K i f.ticks
      { p with
        fileIndex := i
        fileName := f.name
        fileProgress := 0
        overallProgress := (i : ℚ) / (K : ℚ) * 100 }
    have hmids := emitTicks_formula K i f.ticks
      { p with
        fileIndex := i
        fileName := f.name
        fileProgress := 0
        overallProgress := (i : ℚ) / (K : ℚ) * 100 }
      rfl (by simpa using hT)
    simp only [processLoop] at ht
    generalize hgen : emitTicks K i
      { p with
        fileIndex := i
        fileName := f.name
        fileProgress := 0
        overallProgress := (i : ℚ) / (K : ℚ) * 100 } f.ticks = q at ht
    rw [hgen] at hstate hmids
    obtain ⟨-, -, hq2t, -⟩ := hstate
    rcases List.mem_cons.mp ht with hpre | hrest
    · subst hpre
      show (i : ℚ) / (K : ℚ) * 100 =
        ((i : ℚ) + (0 : ℚ) / 100) / ((p.total : ℚ)) * 100
      rw [hT]
      norm_num
    · rcases List.mem_append.mp hrest with hmid | htl
      · obtain ⟨s, hsmem, rfl⟩ := List.mem_map.mp hmid
        obtain ⟨hsi, hst, hform⟩ := hmids s hsmem
        exact hform
      · refine ih (i + 1) _ ?_ t htl
        have hq2K : q.2.total = K := by
          have h := hq2t
          simp only at h
          rw [h]
          exact hT
        cases f.failure <;> simpa using hq2K

/-- C8 as amended: every pre-file or per-file progress tick of a batch run
reports `overallProgress = ((fileIndex + fileProgress/100) / total) * 100`,
i.e. the aggregation counts the files already attempted (the running file
index), not the files completed successfully. -/
theorem c8_progress_formula (operation : String) (files : List FileRun)
    (t : TickKind × BatchProgress)
    (hmem : t ∈ (processFiles operation files).1)
    (hkind : t.1 ≠ TickKind.final) :
    t.2.overallProgress =
      ((t.2.fileIndex : ℚ) + t.2.fileProgress / 100) /
        (t.2.total : ℚ) * 100 := by
  have hticks : (processFiles operation files).1 =
      (processLoop operation files.length 0
        ⟨0, "", 0, 0, 0, files.length, []⟩ files).1 ++
      [(TickKind.final,
        { (processLoop operation files.length 0
            ⟨0, "", 0, 0, 0, files.length, []⟩ files).2 with
          overallProgress := (100 : ℚ) })] := rfl
  rw [hticks] at hmem
  rcases List.mem_append.mp hmem with hin | hfin
  · exact processLoop_formula operation files.length files 0
      ⟨0, "", 0, 0, 0, files.length, []⟩ rfl t hin
  · simp only [List.mem_singleton] at hfin
    rw [hfin] at hkind
    simp at hkind

def c8DefaultTick : TickKind × BatchProgress :=
  (TickKind.final, ⟨0, "", 0, 0, 0, 0, []⟩)

def c8Files : List FileRun := [⟨"a", [1 / 2], none⟩]

def c8FailFiles : List FileRun :=
  [⟨"a", [], some "boom"⟩, ⟨"b", [1 / 2], none⟩]

theorem c8Files_trace :
    (processFiles "encrypt" c8Files).1 =
      [(TickKind.preFile, ⟨0, "a", 0, 0, 0, 1, []⟩),
       (TickKind.midFile, ⟨0, "a", 50, 50, 0, 1, []⟩),
       (TickKind.final, ⟨0, "a", 50, 100, 1, 1, []⟩)] := by
  norm_num [processFiles, processLoop, emitTicks, c8Files]

theorem c8_progress_formula_witness :
    (((processFiles "encrypt" c8Files).1.getD 1 c8DefaultTick).2
      ).overallProgress =
      ((((processFiles "encrypt" c8Files).1.getD 1
          c8DefaultTick).2.fileIndex : ℚ) +
        ((processFiles "encrypt" c8Files).1.getD 1
          c8DefaultTick).2.fileProgress / 100) /
        (((processFiles "encrypt" c8Files).1.getD 1
          c8DefaultTick).2.total : ℚ) * 100 :=
  c8_progress_formula "encrypt" c8Files _
    (by rw [c8Files_trace]; simp)
    (by rw [c8Files_trace]; simp)

theorem c8FailFiles_trace :
    (processFiles "encrypt" c8FailFiles).1 =
      [(TickKind.preFile,
        ⟨0, "a", 0, 0, 0, 2, []⟩),
       (TickKind.preFile,
        ⟨1, "b", 0, 50, 0, 2, [failMessage "encrypt" "a" "boom"]⟩),
       (TickKind.midFile,
        ⟨1, "b", 50, 75, 0, 2, [failMessage "encrypt" "a" "boom"]⟩),
       (TickKind.final,
        ⟨1, "b", 50, 100, 1, 2, [failMessage "encrypt" "a" "boom"]⟩)] := by
  norm_num [processFiles, processLoop, emitTicks, c8FailFiles]

/-- C8 counterexample: in a 2-file batch whose first file fails, the tick
at fraction 1/2 of the second file reports overall progress 75, while the
formula of the claim, which uses the successfully-completed count (still
0), predicts 25. -/
theorem c8_aggregation_counterexample :
    ((processFiles "encrypt" c8FailFiles).1.getD 2 c8DefaultTick).1 =
      TickKind.midFile ∧
    ((processFiles "encrypt" c8FailFiles).1.getD 2
      c8DefaultTick).2.completed = 0 ∧
    ((processFiles "encrypt" c8FailFiles).1.getD 2
      c8DefaultTick).2.overallProgress = 75 ∧
    ((((processFiles "encrypt" c8FailFiles).1.getD 2
        c8DefaultTick).2.completed : ℚ) +
      ((processFiles "encrypt" c8FailFiles).1.getD 2
        c8DefaultTick).2.fileProgress / 100) /
      (((processFiles "encrypt" c8FailFiles).1.getD 2
        c8DefaultTick).2.total : ℚ) * 100 = 25 := by
  rw [c8FailFiles_trace]
  refine ⟨rfl, rfl, rfl, by norm_num⟩

/-- C9: a `processFiles` call that arrives while `isProcessing` is set
settles with exactly the guard error, independently of what the batch body
would do (no processing starts), and a call that is admitted leaves
`isCurrentlyProcessing` false once it settles, whether the body resolved
or rejected. -/
theorem c9_reentrancy_guard (operation : String) (files : List FileRun)
    (body : Except String
      (List (TickKind × BatchProgress) × BatchProgress)) :
    runExclusive true body =
      (Except.error "Batch processing is already in progress", true) ∧
    isCurrentlyProcessing (runExclusive false body).2 = false ∧
    (runExclusive false (Except.ok (processFiles operation files))).1 =
      Except.ok (processFiles operation files) :=
  ⟨rfl, rfl, rfl⟩

/-- The outcome of the file-system calls `isFileEncrypted` makes on a path:
whether `openSync`, the 48-byte `readSync` and `statSync` succeed, the
file's byte size and its content bytes. -/
structure FileHandle where
  openOk : Bool
  readOk : Bool
  statOk : Bool
  size : Nat
  content : List Nat
  deriving DecidableEq, Repr

/-- Embedding of `isFileEncrypted` (crypto module, lines 328-342): open the
file, read its first 48 bytes into a scratch buffer, stat it and return
`size > 64`; any throw along the way is caught and yields `false`.  The
bytes read are never examined. -/
def isFileEncrypted (f : FileHandle) : Bool :=
  if f.openOk then
    if f.readOk then
      if f.statOk then decide (64 < f.size)
      else false
    else false
  else false

/-- C10: `isFileEncrypted` answers true exactly when the open, read and
stat calls succeed and the size exceeds 64 bytes; it never depends on the
content of the bytes it read, and any file-system failure yields false
rather than a throw. -/
theorem c10_is_file_encrypted (f : FileHandle) (c : List Nat) :
    (isFileEncrypted f = true ↔
      (f.openOk = true ∧ f.readOk = true ∧ f.statOk = true ∧ 64 < f.size)) ∧
    isFileEncrypted { f with content := c } = isFileEncrypted f := by
  obtain ⟨o, r, st, sz, cb⟩ := f
  refine ⟨?_, rfl⟩
  cases o <;> cases r <;> cases st <;> simp [isFileEncrypted]

end FileEncryptor
